import Mathlib

/-!
Verification of the aranya-core policy-language compiler, parser and crypto
channel layer against its natural-language specification.

The development shallowly embeds the relevant Rust sources:

* src/policy-lang/src/machine/compile.rs   (namespace Compile)
* src/crates/aranya-policy-lang/src/lang/parse.rs and
  src/crates/policy-lang/src/lang/parse/keywords.rs  (namespace Parse)
* src/crates/crypto/src/aps/bidi.rs and src/crates/crypto/src/idam.rs
  (namespace Crypto)

Stateful Rust code becomes explicit state passing; fallible code returns
Except; machine integers become Nat/Int with explicit bounds where they
matter.
-/

deriving instance DecidableEq for Except

namespace Compile

/-- Association-list map with BTreeMap-like semantics: insert replaces the
previous binding for a key, lookup finds the unique binding. -/
def mapLookup {α : Type} (m : List (String × α)) (k : String) : Option α :=
  match m with
  | [] => none
  | (k', v) :: rest => if k' = k then some v else mapLookup rest k

/-- Removal of a key, mirroring BTreeMap::remove. -/
def mapRemove {α : Type} (m : List (String × α)) (k : String) : List (String × α) :=
  match m with
  | [] => []
  | (k', v) :: rest => if k' = k then mapRemove rest k else (k', v) :: mapRemove rest k

/-- Insertion, mirroring BTreeMap::insert (replaces any existing binding). -/
def mapInsert {α : Type} (m : List (String × α)) (k : String) (v : α) : List (String × α) :=
  (k, v) :: mapRemove m k

/-- Runtime values constructed by the compiler via Instruction::Const.
The machine's Value type has further variants (Bytes, Id, Struct, Fact, ...)
but compile.rs only ever builds these four, so the embedding restricts to
them. Int is Rust i64; the compiler copies literals through unchanged so the
width plays no role here. -/
inductive Value : Type where
  | int (n : Int)
  | string (s : String)
  | bool (b : Bool)
  | none
deriving DecidableEq

/-- Branch/Jump/Call targets: string label before linking, address after
(compile.rs Target). -/
inductive Target : Type where
  | unresolved (s : String)
  | resolved (addr : Nat)
deriving DecidableEq

/-- The bytecode instruction set used by compile.rs. -/
inductive Instruction : Type where
  | const (v : Value)
  | defVar
  | get
  | structNew
  | structSet
  | structGet
  | factNew
  | factKeySet
  | factValueSet
  | queryOp
  | existsOp
  | create
  | update
  | delete
  | emit
  | effect
  | ret
  | call (t : Target)
  | jump (t : Target)
  | branch (t : Target)
  | dup (n : Nat)
  | swap (n : Nat)
  | add
  | sub
  | eq
  | not
  | and
  | or
  | gt
  | lt
  | panic
  | exit
deriving DecidableEq

/-- Label kinds (machine LabelType). -/
inductive LabelType : Type where
  | action
  | command
  | temporary
deriving DecidableEq

/-- A label maps a name to an address and kind. -/
structure Label : Type where
  addr : Nat
  ltype : LabelType
deriving DecidableEq

/-- compile.rs CompileError. The Rust todo!() panics that guard the
unimplemented AST arms are modelled as the catch-all unknown variant, which
is likewise an abort of compilation. -/
inductive CompileError : Type where
  | invalidElement
  | badTarget
  | badArgument
  | notDefined
  | alreadyDefined
  | noReturn
  | unknown (msg : String)
deriving DecidableEq

/-- Value types from the policy AST (ast::VType). -/
inductive VType : Type where
  | stringT
  | bytesT
  | intT
  | boolT
  | idT
  | structT (name : String)
  | enumT (name : String)
  | optionalT (t : VType)
deriving DecidableEq

/-- compile.rs FunctionColor. -/
inductive FunctionColor : Type where
  | pure (t : VType)
  | finish
deriving DecidableEq

/-- compile.rs FunctionSignature. -/
structure FunctionSignature : Type where
  args : List VType
  color : FunctionColor
deriving DecidableEq

/-- A field definition: name and type (ast::FieldDefinition). -/
structure FieldDefinition : Type where
  identifier : String
  field_type : VType
deriving DecidableEq

/-- The compile state: machine program memory, label and struct tables,
write pointer, anonymous-label counter and function signature table
(compile.rs CompileState with the Machine fields inlined). -/
structure CompileState : Type where
  progmem : List Instruction
  labels : List (String × Label)
  struct_defs : List (String × List FieldDefinition)
  wp : Nat
  c : Nat
  function_signatures : List (String × FunctionSignature)
deriving DecidableEq

/-- CompileState::new over an empty machine. -/
def CompileState.new : CompileState :=
  { progmem := [], labels := [], struct_defs := [], wp := 0, c := 0,
    function_signatures := [] }

/-- CompileState::append_instruction. -/
def append_instruction (st : CompileState) (i : Instruction) : CompileState :=
  { st with progmem := st.progmem ++ [i], wp := st.wp + 1 }

/-- CompileState::define_struct. -/
def define_struct (st : CompileState) (name : String)
    (fields : List FieldDefinition) : CompileState :=
  { st with struct_defs := mapInsert st.struct_defs name fields }

/-- CompileState::define_label. -/
def define_label (st : CompileState) (identifier : String) (addr : Nat)
    (ntype : LabelType) : CompileState :=
  { st with labels := mapInsert st.labels identifier { addr := addr, ltype := ntype } }

/-- CompileState::anonymous_name, returning the name and the bumped state. -/
def anonymous_name (st : CompileState) : String × CompileState :=
  (String.append "anonymous" (toString st.c), { st with c := st.c + 1 })

/-- CompileState::resolve_target: resolve one target against the label map,
removing the label when it is temporary. -/
def resolve_target (t : Target) (labels : List (String × Label)) :
    Except CompileError (Target × List (String × Label)) :=
  match t with
  | Target.unresolved s =>
    match mapLookup labels s with
    | Option.none => Except.error CompileError.badTarget
    | Option.some name =>
      Except.ok (Target.resolved name.addr,
        if name.ltype = LabelType.temporary then mapRemove labels s else labels)
  | Target.resolved a => Except.ok (Target.resolved a, labels)

/-- The loop body of CompileState::resolve_targets: walk the program,
resolving Branch/Jump/Call targets while mutating the label map. -/
def resolve_targets_list (prog : List Instruction) (labels : List (String × Label)) :
    Except CompileError (List Instruction × List (String × Label)) :=
  match prog with
  | [] => Except.ok ([], labels)
  | i :: rest =>
    match i with
    | Instruction.branch t => do
      let (t', labels') ← resolve_target t labels
      let (rest', labels'') ← resolve_targets_list rest labels'
      Except.ok (Instruction.branch t' :: rest', labels'')
    | Instruction.jump t => do
      let (t', labels') ← resolve_target t labels
      let (rest', labels'') ← resolve_targets_list rest labels'
      Except.ok (Instruction.jump t' :: rest', labels'')
    | Instruction.call t => do
      let (t', labels') ← resolve_target t labels
      let (rest', labels'') ← resolve_targets_list rest labels'
      Except.ok (Instruction.call t' :: rest', labels'')
    | _ => do
      let (rest', labels') ← resolve_targets_list rest labels
      Except.ok (i :: rest', labels')

/-- CompileState::resolve_targets. -/
def resolve_targets (st : CompileState) : Except CompileError CompileState := do
  let (prog', labels') ← resolve_targets_list st.progmem st.labels
  Except.ok { st with progmem := prog', labels := labels' }

mutual

/-- ast::Expression, as consumed by compile.rs. The Vec payloads of struct
literals, fact literals and call arguments are represented by the dedicated
spine types FieldList / ExprList so that all recursion is structural. -/
inductive Expression : Type where
  | int (n : Int)
  | string (s : String)
  | bool (b : Bool)
  | optNone
  | optSome (e : Expression)
  | namedStruct (s : NamedStruct)
  | bind
  | queryFn (f : FactLiteral)
  | existsFn (f : FactLiteral)
  | ifFn (e t f : Expression)
  | idFn (e : Expression)
  | authorIdFn (e : Expression)
  | functionCall (f : FunctionCall)
  | identifier (i : String)
  | parentheses (e : Expression)
  | dot (t : Expression) (s : String)
  | addE (a b : Expression)
  | subtract (a b : Expression)
  | andE (a b : Expression)
  | orE (a b : Expression)
  | equal (a b : Expression)
  | greaterThan (a b : Expression)
  | lessThan (a b : Expression)
  | greaterThanOrEqual (a b : Expression)
  | lessThanOrEqual (a b : Expression)
  | notEqual (a b : Expression)
  | negative (e : Expression)
  | notE (e : Expression)
  | unwrap (e : Expression)
  | isE (e : Expression) (checkSome : Bool)

/-- ast::NamedStruct: identifier plus (name, expression) fields. -/
inductive NamedStruct : Type where
  | mk (identifier : String) (fields : FieldList)

/-- ast::FunctionCall: identifier plus argument expressions. -/
inductive FunctionCall : Type where
  | mk (identifier : String) (arguments : ExprList)

/-- ast::FactLiteral: identifier, key fields, optional value fields. -/
inductive FactLiteral : Type where
  | mk (identifier : String) (key_fields : FieldList)
       (value_fields : OptFieldList)

/-- Spine of (name, expression) pairs (Vec<(String, Expression)>). -/
inductive FieldList : Type where
  | nil
  | cons (name : String) (value : Expression) (rest : FieldList)

/-- Spine of expressions (Vec<Expression>). -/
inductive ExprList : Type where
  | nil
  | cons (e : Expression) (rest : ExprList)

/-- Option<Vec<(String, Expression)>> for fact value fields. -/
inductive OptFieldList : Type where
  | none
  | some (fields : FieldList)

end

/-- Number of expressions in an ExprList (arguments.len()). -/
def ExprList.length : ExprList → Nat
  | ExprList.nil => 0
  | ExprList.cons _ rest => 1 + ExprList.length rest

/-- The PartialEq test against Expression::Bind used by the fact-value and
update loops. -/
def isBindExpr (e : Expression) : Bool :=
  match e with
  | Expression.bind => true
  | _ => false

/-- Named accessor for NamedStruct.identifier. -/
def NamedStruct.identifier : NamedStruct → String
  | NamedStruct.mk i _ => i

/-- Named accessor for FunctionCall.identifier. -/
def FunctionCall.identifier : FunctionCall → String
  | FunctionCall.mk i _ => i

mutual

/-- CompileState::compile_expression from compile.rs. Takes and returns the
compile state; errors are CompileError. The Id/AuthorId internal functions
and the Negative/Not/Is operators are todo!() in the source and are mapped
to the unknown error (an abort either way). -/
def compile_expression (expression : Expression) (st : CompileState) :
    Except CompileError CompileState :=
  match expression with
  | Expression.int n => Except.ok (append_instruction st (Instruction.const (Value.int n)))
  | Expression.string s =>
    Except.ok (append_instruction st (Instruction.const (Value.string s)))
  | Expression.bool b =>
    Except.ok (append_instruction st (Instruction.const (Value.bool b)))
  | Expression.optNone =>
    Except.ok (append_instruction st (Instruction.const Value.none))
  | Expression.optSome v => compile_expression v st
  | Expression.namedStruct s => compile_struct_literal s st
  | Expression.bind => Except.error CompileError.invalidElement
  | Expression.queryFn f => do
    let st ← compile_fact_literal f st
    Except.ok (append_instruction st Instruction.queryOp)
  | Expression.existsFn f => do
    let st ← compile_fact_literal f st
    Except.ok (append_instruction st Instruction.existsOp)
  | Expression.ifFn e t f => do
    let (else_name, st) := anonymous_name st
    let (end_name, st) := anonymous_name st
    let st ← compile_expression e st
    let st := append_instruction st (Instruction.branch (Target.unresolved else_name))
    let st ← compile_expression f st
    let st := append_instruction st (Instruction.jump (Target.unresolved end_name))
    let st := define_label st else_name st.wp LabelType.temporary
    let st ← compile_expression t st
    Except.ok (define_label st end_name st.wp LabelType.temporary)
  | Expression.idFn _ => Except.error (CompileError.unknown "not yet implemented")
  | Expression.authorIdFn _ => Except.error (CompileError.unknown "not yet implemented")
  | Expression.functionCall f =>
    match f with
    | FunctionCall.mk identifier arguments =>
      match mapLookup st.function_signatures identifier with
      | Option.none => Except.error CompileError.notDefined
      | Option.some signature =>
        -- Only pure functions are allowed in expressions.
        match signature.color with
        | FunctionColor.finish => Except.error CompileError.invalidElement
        | FunctionColor.pure _ =>
          if signature.args.length ≠ arguments.length then
            Except.error CompileError.badArgument
          else do
            let st ← compile_expr_args arguments st
            Except.ok (append_instruction st
              (Instruction.call (Target.unresolved identifier)))
  | Expression.identifier i =>
    let st := append_instruction st (Instruction.const (Value.string i))
    Except.ok (append_instruction st Instruction.get)
  | Expression.parentheses e => compile_expression e st
  | Expression.dot t s => do
    let st ← compile_expression t st
    let st := append_instruction st (Instruction.const (Value.string s))
    Except.ok (append_instruction st Instruction.structGet)
  | Expression.addE a b => do
    let st ← compile_expression a st
    let st ← compile_expression b st
    Except.ok (append_instruction st Instruction.add)
  | Expression.subtract a b => do
    let st ← compile_expression a st
    let st ← compile_expression b st
    Except.ok (append_instruction st Instruction.sub)
  | Expression.andE a b => do
    let st ← compile_expression a st
    let st ← compile_expression b st
    Except.ok (append_instruction st Instruction.and)
  | Expression.orE a b => do
    let st ← compile_expression a st
    let st ← compile_expression b st
    Except.ok (append_instruction st Instruction.or)
  | Expression.equal a b => do
    let st ← compile_expression a st
    let st ← compile_expression b st
    Except.ok (append_instruction st Instruction.eq)
  | Expression.greaterThan a b => do
    let st ← compile_expression a st
    let st ← compile_expression b st
    Except.ok (append_instruction st Instruction.gt)
  | Expression.lessThan a b => do
    let st ← compile_expression a st
    let st ← compile_expression b st
    Except.ok (append_instruction st Instruction.lt)
  | Expression.greaterThanOrEqual a b => do
    let st ← compile_expression a st
    let st ← compile_expression b st
    let st := append_instruction st (Instruction.dup 1)
    let st := append_instruction st (Instruction.dup 1)
    let st := append_instruction st Instruction.eq
    let st := append_instruction st (Instruction.swap 2)
    let st := append_instruction st (Instruction.swap 1)
    let st := append_instruction st Instruction.gt
    Except.ok (append_instruction st Instruction.or)
  | Expression.lessThanOrEqual a b => do
    let st ← compile_expression a st
    let st ← compile_expression b st
    let st := append_instruction st (Instruction.dup 1)
    let st := append_instruction st (Instruction.dup 1)
    let st := append_instruction st Instruction.eq
    let st := append_instruction st (Instruction.swap 2)
    let st := append_instruction st (Instruction.swap 1)
    let st := append_instruction st Instruction.lt
    Except.ok (append_instruction st Instruction.or)
  | Expression.notEqual a b => do
    let st ← compile_expression a st
    let st ← compile_expression b st
    let st := append_instruction st Instruction.eq
    Except.ok (append_instruction st Instruction.not)
  | Expression.negative _ => Except.error (CompileError.unknown "not yet implemented")
  | Expression.notE _ => Except.error (CompileError.unknown "not yet implemented")
  | Expression.unwrap e => do
    let (not_none, st) := anonymous_name st
    let st ← compile_expression e st
    let st := append_instruction st (Instruction.dup 0)
    let st := append_instruction st (Instruction.const Value.none)
    let st := append_instruction st Instruction.eq
    let st := append_instruction st Instruction.not
    let st := append_instruction st (Instruction.branch (Target.unresolved not_none))
    let st := append_instruction st Instruction.panic
    Except.ok (define_label st not_none st.wp LabelType.temporary)
  | Expression.isE _ _ => Except.error (CompileError.unknown "not yet implemented")

/-- CompileState::compile_struct_literal. -/
def compile_struct_literal (s : NamedStruct) (st : CompileState) :
    Except CompileError CompileState :=
  match s with
  | NamedStruct.mk identifier fields =>
    match mapLookup st.struct_defs identifier with
    | Option.none => Except.error CompileError.badArgument
    | Option.some _ =>
      let st := append_instruction st (Instruction.const (Value.string identifier))
      let st := append_instruction st Instruction.structNew
      compile_struct_fields fields st

/-- The field loop of compile_struct_literal. -/
def compile_struct_fields (fields : FieldList) (st : CompileState) :
    Except CompileError CompileState :=
  match fields with
  | FieldList.nil => Except.ok st
  | FieldList.cons name value rest => do
    let st ← compile_expression value st
    let st := append_instruction st (Instruction.const (Value.string name))
    let st := append_instruction st Instruction.structSet
    compile_struct_fields rest st

/-- CompileState::compile_fact_literal. -/
def compile_fact_literal (f : FactLiteral) (st : CompileState) :
    Except CompileError CompileState :=
  match f with
  | FactLiteral.mk identifier key_fields value_fields => do
    let st := append_instruction st (Instruction.const (Value.string identifier))
    let st := append_instruction st Instruction.factNew
    let st ← compile_fact_key_fields key_fields st
    match value_fields with
    | OptFieldList.none => Except.ok st
    | OptFieldList.some fields => compile_fact_value_fields fields st

/-- The key-field loop of compile_fact_literal. -/
def compile_fact_key_fields (fields : FieldList) (st : CompileState) :
    Except CompileError CompileState :=
  match fields with
  | FieldList.nil => Except.ok st
  | FieldList.cons name value rest => do
    let st ← compile_expression value st
    let st := append_instruction st (Instruction.const (Value.string name))
    let st := append_instruction st Instruction.factKeySet
    compile_fact_key_fields rest st

/-- The value-field loop of compile_fact_literal; Bind expressions are
skipped because their values are unset. -/
def compile_fact_value_fields (fields : FieldList) (st : CompileState) :
    Except CompileError CompileState :=
  match fields with
  | FieldList.nil => Except.ok st
  | FieldList.cons name value rest =>
    if isBindExpr value then compile_fact_value_fields rest st
    else do
      let st ← compile_expression value st
      let st := append_instruction st (Instruction.const (Value.string name))
      let st := append_instruction st Instruction.factValueSet
      compile_fact_value_fields rest st

/-- The argument loop of the FunctionCall arms. -/
def compile_expr_args (args : ExprList) (st : CompileState) :
    Except CompileError CompileState :=
  match args with
  | ExprList.nil => Except.ok st
  | ExprList.cons e rest => do
    let st ← compile_expression e st
    compile_expr_args rest st

end

/-- ast::FinishStatement as consumed by compile.rs. -/
inductive FinishStatement : Type where
  | create (fact : FactLiteral)
  | update (fact : FactLiteral) (toFields : FieldList)
  | delete (fact : FactLiteral)
  | effect (e : Expression)
  | functionCall (f : FunctionCall)

/-- ast::Statement as consumed by compile.rs. Match and When carry payloads
in the AST, but the compiler never inspects them (their arms are todo!()),
so the payloads are omitted here. -/
inductive Statement : Type where
  | letS (identifier : String) (expression : Expression)
  | check (expression : Expression)
  | matchS
  | whenS
  | emit (e : Expression)
  | ret (expression : Expression)
  | finish (s : List FinishStatement)

/-- The `to` loop of the finish Update arm: binding is forbidden here. -/
def compile_update_to (toFields : FieldList) (st : CompileState) :
    Except CompileError CompileState :=
  match toFields with
  | FieldList.nil => Except.ok st
  | FieldList.cons k v rest =>
    if isBindExpr v then Except.error CompileError.badArgument
    else do
      let st ← compile_expression v st
      let st := append_instruction st (Instruction.const (Value.string k))
      let st := append_instruction st Instruction.factValueSet
      compile_update_to rest st

/-- CompileState::compile_finish_statements. -/
def compile_finish_statements (statements : List FinishStatement)
    (st : CompileState) : Except CompileError CompileState :=
  match statements with
  | [] => Except.ok st
  | statement :: rest => do
    let st ←
      match statement with
      | FinishStatement.create s => do
        let st ← compile_fact_literal s st
        Except.ok (append_instruction st Instruction.create)
      | FinishStatement.update fact toFields => do
        let st ← compile_fact_literal fact st
        let st := append_instruction st (Instruction.dup 0)
        let st ← compile_update_to toFields st
        Except.ok (append_instruction st Instruction.update)
      | FinishStatement.delete s => do
        let st ← compile_fact_literal s st
        Except.ok (append_instruction st Instruction.delete)
      | FinishStatement.effect s => do
        let st ← compile_expression s st
        Except.ok (append_instruction st Instruction.effect)
      | FinishStatement.functionCall f =>
        match f with
        | FunctionCall.mk identifier arguments =>
          match mapLookup st.function_signatures identifier with
          | Option.none => Except.error CompileError.notDefined
          | Option.some signature =>
            -- Only finish functions are allowed in finish blocks.
            match signature.color with
            | FunctionColor.pure _ => Except.error CompileError.invalidElement
            | FunctionColor.finish =>
              if signature.args.length ≠ arguments.length then
                Except.error CompileError.badArgument
              else do
                let st ← compile_expr_args arguments st
                Except.ok (append_instruction st
                  (Instruction.call (Target.unresolved identifier)))
    compile_finish_statements rest st

/-- CompileState::compile_statements. -/
def compile_statements (statements : List Statement) (st : CompileState) :
    Except CompileError CompileState :=
  match statements with
  | [] => Except.ok st
  | statement :: rest => do
    let st ←
      match statement with
      | Statement.letS identifier expression => do
        let st ← compile_expression expression st
        let st := append_instruction st (Instruction.const (Value.string identifier))
        Except.ok (append_instruction st Instruction.defVar)
      | Statement.check expression => do
        let st ← compile_expression expression st
        -- Branch over the following Panic: the check-success target is the
        -- instruction after the Panic, i.e. current wp + 2.
        let st := append_instruction st (Instruction.branch (Target.resolved (st.wp + 2)))
        Except.ok (append_instruction st Instruction.panic)
      | Statement.matchS => Except.error (CompileError.unknown "not yet implemented")
      | Statement.whenS => Except.error (CompileError.unknown "not yet implemented")
      | Statement.emit s => do
        let st ← compile_expression s st
        Except.ok (append_instruction st Instruction.emit)
      | Statement.ret s => do
        let st ← compile_expression s st
        Except.ok (append_instruction st Instruction.ret)
      | Statement.finish s => compile_finish_statements s st
    compile_statements rest st

/-- ast::FunctionDefinition. -/
structure FunctionDefinition : Type where
  identifier : String
  arguments : List FieldDefinition
  return_type : VType
  statements : List Statement

/-- ast::FinishFunctionDefinition. -/
structure FinishFunctionDefinition : Type where
  identifier : String
  arguments : List FieldDefinition
  statements : List FinishStatement

/-- ast::CommandDefinition: attributes, fields and the four statement
blocks produced by the parser. -/
structure CommandDefinition : Type where
  attributes : List (String × Expression)
  identifier : String
  fields : List FieldDefinition
  sealBlock : List Statement
  openBlock : List Statement
  policy : List Statement
  recallBlock : List Statement

/-- CompileState::define_function_signature: register a pure signature,
erroring if the name is taken. -/
def define_function_signature (d : FunctionDefinition) (st : CompileState) :
    Except CompileError CompileState :=
  match mapLookup st.function_signatures d.identifier with
  | Option.some _ => Except.error CompileError.alreadyDefined
  | Option.none =>
    let signature : FunctionSignature :=
      { args := d.arguments.map (fun a => a.field_type),
        color := FunctionColor.pure d.return_type }
    let sigs := mapInsert st.function_signatures d.identifier signature
    Except.ok { st with function_signatures := sigs }

/-- CompileState::define_finish_function_signature. -/
def define_finish_function_signature (d : FinishFunctionDefinition)
    (st : CompileState) : Except CompileError CompileState :=
  match mapLookup st.function_signatures d.identifier with
  | Option.some _ => Except.error CompileError.alreadyDefined
  | Option.none =>
    let signature : FunctionSignature :=
      { args := d.arguments.map (fun a => a.field_type),
        color := FunctionColor.finish }
    let sigs := mapInsert st.function_signatures d.identifier signature
    Except.ok { st with function_signatures := sigs }

/-- The argument prologue shared by function/action compilation: arguments
are popped in reverse and bound as named locals. -/
def compile_arg_defs (arguments : List FieldDefinition) (st : CompileState) :
    CompileState :=
  arguments.reverse.foldl
    (fun s a =>
      append_instruction (append_instruction s (Instruction.const (Value.string a.identifier)))
        Instruction.defVar)
    st

/-- The slice progmem[from..wp] used by the NoReturn check. -/
def progSlice (prog : List Instruction) (fromW wp : Nat) : List Instruction :=
  (prog.take wp).drop fromW

/-- Is this instruction the Return instruction (the matches! test of the
NoReturn check)? -/
def isRet (i : Instruction) : Bool :=
  match i with
  | Instruction.ret => true
  | _ => false

/-- Does an instruction list contain a Return instruction? -/
def containsReturn (l : List Instruction) : Bool :=
  l.any isRet

/-- CompileState::compile_function: label the entry as Temporary, register
the signature, bind arguments, compile the body, fail with NoReturn when no
Return instruction was produced, and otherwise append the fall-through
Panic. -/
def compile_function (function : FunctionDefinition) (st : CompileState) :
    Except CompileError CompileState := do
  let st := define_label st function.identifier st.wp LabelType.temporary
  let st ← define_function_signature function st
  let st := compile_arg_defs function.arguments st
  let fromW := st.wp
  let st ← compile_statements function.statements st
  if containsReturn (progSlice st.progmem fromW st.wp) then
    Except.ok (append_instruction st Instruction.panic)
  else
    Except.error CompileError.noReturn

/-- CompileState::compile_finish_function. -/
def compile_finish_function (function : FinishFunctionDefinition)
    (st : CompileState) : Except CompileError CompileState := do
  let st := define_label st function.identifier st.wp LabelType.temporary
  let st ← define_finish_function_signature function st
  let st := compile_arg_defs function.arguments st
  let st ← compile_finish_statements function.statements st
  Except.ok (append_instruction st Instruction.ret)

/-- CompileState::compile_command: define the command struct, label the
entry as Command, compile the policy block, and append Exit. The recall,
seal and open blocks of the definition are not consulted. -/
def compile_command (command : CommandDefinition) (st : CompileState) :
    Except CompileError CompileState := do
  let st := define_struct st command.identifier command.fields
  let st := define_label st command.identifier st.wp LabelType.command
  let st ← compile_statements command.policy st
  Except.ok (append_instruction st Instruction.exit)

/-- Is a statement a return statement? -/
def isRetStmt (s : Statement) : Bool :=
  match s with
  | Statement.ret _ => true
  | _ => false

/-- Does a statement list contain a top-level return statement? -/
def hasReturnStmt (statements : List Statement) : Bool :=
  statements.any isRetStmt

/-- Spec-side definition for the pure-function totality claim, following
the spec's words: the body "can reach its end without executing a Return
instruction on some path". Among the statement forms the compiler accepts
(let, check, emit, finish; match and when are rejected outright), every
statement other than return admits a continuation to the following
statement: let, emit and finish always continue, and check either panics
(which aborts rather than reaching the end) or continues. A return
statement unconditionally leaves the function. Hence the body can complete
all of its statements without executing a return exactly when no top-level
statement is a return statement. -/
def canReachEndWithoutReturn (statements : List Statement) : Bool :=
  !(hasReturnStmt statements)

/-- st' extends st by some emitted code d whose Return content is b:
progmem grows by d, the write pointer tracks it, and d contains a Return
instruction if and only if b. -/
def EmitsD (st st' : CompileState) (b : Bool) : Prop :=
  ∃ d, st'.progmem = st.progmem ++ d ∧ st'.wp = st.wp + d.length ∧ d.any isRet = b

/-- st' extends st by emitted code containing no Return instruction. -/
def EmitsNR (st st' : CompileState) : Prop :=
  EmitsD st st' false

/-- Modelled from the spec: the value-stack semantics of the opcodes used
by the comparison lowering (spec 4.D, the policy VM itself is not among the
sources). The stack head is the top. Dup(n) pushes a copy of the element n
below the top; Swap(n) exchanges the top with the element n below the top;
Eq pops two values and pushes their structural equality (a panic on type
mismatch, modelled as failure, per 4.D); Gt and Lt pop the right then the
left Int operand and push the comparison; Or pops two Bools and pushes the
disjunction. Any other situation is a machine panic, modelled as none. -/
def stackStep (i : Instruction) (stack : List Value) : Option (List Value) :=
  match i, stack with
  | Instruction.dup n, s =>
    match s.get? n with
    | Option.some v => Option.some (v :: s)
    | Option.none => Option.none
  | Instruction.swap n, s =>
    match s.get? 0, s.get? n with
    | Option.some top, Option.some below =>
      Option.some ((s.set 0 below).set n top)
    | _, _ => Option.none
  | Instruction.eq, y :: x :: rest =>
    Option.some (Value.bool (decide (x = y)) :: rest)
  | Instruction.gt, Value.int y :: Value.int x :: rest =>
    Option.some (Value.bool (decide (x > y)) :: rest)
  | Instruction.lt, Value.int y :: Value.int x :: rest =>
    Option.some (Value.bool (decide (x < y)) :: rest)
  | Instruction.or, Value.bool y :: Value.bool x :: rest =>
    Option.some (Value.bool (x || y) :: rest)
  | _, _ => Option.none

/-- Run a straight-line instruction sequence over the value stack. -/
def runOps (ops : List Instruction) (stack : List Value) : Option (List Value) :=
  match ops with
  | [] => Option.some stack
  | i :: rest =>
    match stackStep i stack with
    | Option.some stack' => runOps rest stack'
    | Option.none => Option.none

/-- The seven-instruction tail emitted for a >= b (with Gt) and a <= b
(with Lt). -/
def cmpEpilogue (cmp : Instruction) : List Instruction :=
  [Instruction.dup 1, Instruction.dup 1, Instruction.eq, Instruction.swap 2,
   Instruction.swap 1, cmp, Instruction.or]

end Compile

namespace Parse

/-- ParseErrorKind from parse/error.rs. Errors are modelled by their kind;
the message text and source span do not affect acceptance and are
omitted. -/
inductive ParseErrorKind : Type where
  | syntaxKind
  | invalidNumber
  | invalidString
  | invalidType
  | reservedIdentifier
  | expression
  | invalidMember
  | invalidFunctionCall
  | invalidStatement
  | unknown
deriving DecidableEq

/-- The pest rules the embedded parser fragments inspect. All rules not
distinguished by those fragments are collapsed into otherRule. -/
inductive Rule : Type where
  | identifier
  | string_literal
  | expression
  | otherRule
deriving DecidableEq

/-- A pest Pair as seen through as_rule()/as_str(). -/
structure Token : Type where
  rule : Rule
  text : String
deriving DecidableEq

/-- The 51 reserved keywords from keywords.rs. -/
def KEYWORDS : List String :=
  ["action", "bool", "bytes", "check", "check_unwrap", "command", "create",
   "debug_assert", "delete", "deserialize", "dynamic", "effect", "else",
   "emit", "enum", "envelope", "exists", "fact", "false", "fields",
   "finish", "function", "id", "if", "immutable", "int", "is", "let",
   "match", "None", "open", "optional", "origin", "policy", "publish",
   "query", "recall", "return", "seal", "serialize", "Some", "string",
   "struct", "then", "this", "to", "true", "unwrap", "update", "use",
   "when"]

/-- PairContext::consume_of_type followed by as_str: returns the token text
when the rule matches, otherwise the Unknown parse error. -/
def consume_string (t : Token) (rule : Rule) : Except ParseErrorKind String :=
  if t.rule ≠ rule then Except.error ParseErrorKind.unknown
  else Except.ok t.text

/-- PairContext::consume_identifier: an identifier token whose text is in
KEYWORDS is rejected with ReservedIdentifier. -/
def consume_identifier (t : Token) : Except ParseErrorKind String :=
  if t.rule ≠ Rule.identifier then Except.error ParseErrorKind.unknown
  else if KEYWORDS.contains t.text then
    Except.error ParseErrorKind.reservedIdentifier
  else Except.ok t.text

/-- ast::EnumDefinition. -/
structure EnumDefinition : Type where
  identifier : String
  values : List String
deriving DecidableEq

/-- parse_enum_definition at the token level: the enum name is consumed via
consume_string (not consume_identifier, so no keyword check), and every
remaining token's text is taken verbatim as a variant value. ChunkContext
range bookkeeping does not affect acceptance and is omitted. -/
def parse_enum_definition (name : Token) (valueTokens : List Token) :
    Except ParseErrorKind EnumDefinition := do
  let identifier ← consume_string name Rule.identifier
  Except.ok { identifier := identifier, values := valueTokens.map (fun t => t.text) }

/-- The numeric value of one hex digit, per char::to_digit(16) as used by
u8::from_str_radix. -/
def hexVal (c : Char) : Option Nat :=
  if '0' ≤ c ∧ c ≤ '9' then Option.some (c.toNat - '0'.toNat)
  else if 'a' ≤ c ∧ c ≤ 'f' then Option.some (c.toNat - 'a'.toNat + 10)
  else if 'A' ≤ c ∧ c ≤ 'F' then Option.some (c.toNat - 'A'.toNat + 10)
  else Option.none

/-- u8::from_str_radix(s, 16) on the up-to-two collected characters: fails
on an empty string or any non-hex character. (The sign-prefix forms
from_str_radix would also accept cannot reach 'out' here, because with at
most two characters a prefixed number is a plain digit either way and the
caller never produces signs; overflow is impossible with two hex
digits.) -/
def hexPair (cs : List Char) : Option Nat :=
  match cs with
  | [] => Option.none
  | _ =>
    cs.foldl
      (fun acc c =>
        match acc, hexVal c with
        | Option.some a, Option.some v => Option.some (a * 16 + v)
        | _, _ => Option.none)
      (Option.some 0)

/-- The character-consuming loop of parse_string_literal, after the
opening quote: backslash escapes \xNN (two hex chars, pushing the char
with code point NN, i.e. `v as char`) and \n; any other escape character
(including backslash itself and end of input) is InvalidString; a bad hex
pair is InvalidNumber; a bare closing quote stops; anything else is copied
through. Exhausting the input without a closing quote returns the
accumulated output, exactly as the source loop does. -/
def parse_string_chars (cs : List Char) (out : List Char) :
    Except ParseErrorKind (List Char) :=
  match cs with
  | [] => Except.ok out
  | c :: rest =>
    if c = '\\' then
      match rest with
      | [] => Except.error ParseErrorKind.invalidString
      | n :: rest2 =>
        if n = 'x' then
          -- it.take(2).collect() consumes up to two characters; the
          -- three cases below spell out take/drop so the recursion stays
          -- structural. With no character collected, from_str_radix of
          -- the empty string always fails; with one collected the input
          -- is exhausted afterwards, so the loop would stop at once and
          -- return the output, which is inlined here.
          match rest2 with
          | [] => Except.error ParseErrorKind.invalidNumber
          | [c1] =>
            match hexPair [c1] with
            | Option.some v => Except.ok (out ++ [Char.ofNat v])
            | Option.none => Except.error ParseErrorKind.invalidNumber
          | c1 :: c2 :: rest3 =>
            match hexPair [c1, c2] with
            | Option.some v => parse_string_chars rest3 (out ++ [Char.ofNat v])
            | Option.none => Except.error ParseErrorKind.invalidNumber
        else if n = 'n' then parse_string_chars rest2 (out ++ ['\n'])
        else Except.error ParseErrorKind.invalidString
    else if c = '"' then Except.ok out
    else parse_string_chars rest (out ++ [c])

/-- parse_string_literal from parse.rs over the literal's characters:
consume the opening quote, then run the escape-processing loop. -/
def parse_string_literal (src : List Char) : Except ParseErrorKind (List Char) :=
  match src with
  | [] => Except.error ParseErrorKind.invalidString
  | c :: rest =>
    if c = '"' then parse_string_chars rest []
    else Except.error ParseErrorKind.invalidString

/-- UTF-8 encoding of one char (Rust String stores UTF-8 bytes). -/
def utf8EncodeChar (c : Char) : List Nat :=
  let n := c.toNat
  if n < 128 then [n]
  else if n < 2048 then [192 + n / 64, 128 + n % 64]
  else if n < 65536 then [224 + n / 4096, 128 + n / 64 % 64, 128 + n % 64]
  else [240 + n / 262144, 128 + n / 4096 % 64, 128 + n / 64 % 64, 128 + n % 64]

/-- The byte representation of a parsed string (Rust String::as_bytes). -/
def utf8Bytes (s : List Char) : List Nat :=
  (s.map utf8EncodeChar).flatten

/-- The two-hex-digit source spelling of a byte, low nibble in lowercase
hex, as one concrete way to write \xNN. -/
def hexDigitChar (d : Nat) : Char :=
  if d < 10 then Char.ofNat (48 + d) else Char.ofNat (87 + d)

/-- The source characters of a string literal containing exactly the
escape \xNN for the byte b: a quote, backslash-x and two hex digits, and
the closing quote. -/
def xEscapeLiteral (b : Nat) : List Char :=
  ['"', '\\', 'x', hexDigitChar (b / 16), hexDigitChar (b % 16), '"']

end Parse

namespace Crypto

/-- Identifiers (32-byte ids, user ids) and key material are modelled as
byte strings; nothing below inspects their length. -/
def Bytes : Type := List Nat
deriving instance DecidableEq for Bytes

/-- The per-cipher-suite constants hashed into the channel info: the suite
id bytes and the engine id bytes. Both channels of one engine type share
them. -/
structure SuiteIds : Type where
  suite_id : List Nat
  engine_id : List Nat
deriving DecidableEq

/-- BidiChannel from aps/bidi.rs. The secret/public encryption keys are
carried as opaque handles; author_info/peer_info do not read them. -/
structure BidiChannel : Type where
  parent_cmd_id : List Nat
  our_sk : Nat
  our_id : List Nat
  their_pk : Nat
  their_id : List Nat
  label : Nat
deriving DecidableEq

/-- Modelled from the spec: tuple_hash (crate::hash, not among the source
files) hashes a sequence of byte strings, spec 4.G: info = H(label, suite
id, engine id, parent command id, sender id, receiver id, i2osp(label,4)).
It is modelled as the injective tuple encoding itself (the ideal hash):
two digests are equal exactly when the hashed component sequences are. -/
def tuple_hash (components : List (List Nat)) : List (List Nat) :=
  components

/-- The domain-separation label b"ApsChannelKeys". -/
def apsLabel : List Nat :=
  "ApsChannelKeys".data.map Char.toNat

/-- u32::to_be_bytes, i.e. i2osp(label, 4). -/
def u32be (n : Nat) : List Nat :=
  [n / 16777216 % 256, n / 65536 % 256, n / 256 % 256, n % 256]

/-- BidiChannel::author_info: the author's info digest, hashing
(our_id, their_id) in sender-receiver position. -/
def author_info (cs : SuiteIds) (ch : BidiChannel) : List (List Nat) :=
  tuple_hash
    [apsLabel, cs.suite_id, cs.engine_id, ch.parent_cmd_id, ch.our_id,
     ch.their_id, u32be ch.label]

/-- BidiChannel::peer_info: same as author_info with our_id and their_id
reversed. -/
def peer_info (cs : SuiteIds) (ch : BidiChannel) : List (List Nat) :=
  tuple_hash
    [apsLabel, cs.suite_id, cs.engine_id, ch.parent_cmd_id, ch.their_id,
     ch.our_id, u32be ch.label]

/-- The top-level crypto error, restricted to the kinds the embedded
functions distinguish. -/
inductive Error : Type where
  | sameUserId
  | keyConversion
  | importErr
  | hpke
  | other
deriving DecidableEq

/-- BidiSecrets::new: binds author = our side and peer = their side,
guards against our_id == their_id with same_user_id before any key
derivation, then samples a root key and runs deterministic HPKE setup. The
root-key sampling and the HPKE encapsulation are external cipher-suite
calls, abstracted as the root_sk argument and the fallible hpkeEncap
argument. Returns (author secret, peer encap). -/
def bidiSecretsNew (root_sk : Nat) (hpkeEncap : Except Error (List Nat))
    (ch : BidiChannel) : Except Error (Nat × List Nat) :=
  if ch.our_id = ch.their_id then Except.error Error.sameUserId
  else do
    let enc ← hpkeEncap
    Except.ok (root_sk, enc)

/-- BidiKeys::from_author_secret: the same same_user_id guard, then HPKE
send setup and key export, abstracted as the fallible hpkeKeys argument
returning the (seal, open) raw keys. -/
def bidiKeysFromAuthorSecret (hpkeKeys : Except Error (List Nat × List Nat))
    (ch : BidiChannel) : Except Error (List Nat × List Nat) :=
  if ch.our_id = ch.their_id then Except.error Error.sameUserId
  else hpkeKeys

/-- BidiKeys::from_peer_encap: here author = their side and peer = our
side; the guard compares author_id == peer_id, i.e. their_id = our_id. -/
def bidiKeysFromPeerEncap (hpkeKeys : Except Error (List Nat × List Nat))
    (ch : BidiChannel) : Except Error (List Nat × List Nat) :=
  if ch.their_id = ch.our_id then Except.error Error.sameUserId
  else hpkeKeys

/-- A group key as decrypt_message sees it: only its AEAD overhead is
consulted before the open call. -/
structure GroupKeyM : Type where
  overhead : Nat
deriving DecidableEq

/-- The outcome of running a Rust function that may return Ok, return Err,
or panic/abort. -/
inductive RustResult (α : Type) : Type where
  | ok (a : α)
  | err (e : Error)
  | panicked
deriving DecidableEq

/-- decrypt_message from idam.rs. The engine unwrap of the group key, the
author-certificate decode and the AEAD open are external calls abstracted
as arguments. The buffer allocation vec![0u8; ciphertext.len() -
group_key.overhead()] performs unchecked usize subtraction: when
ciphertext.len() < overhead this panics in debug builds and wraps to a
near-2^64 allocation (an abort) in release builds; both outcomes are
modelled as panicked. -/
def decrypt_message (unwrapResult : Except Error GroupKeyM)
    (decodeAuthor : Except Error Nat)
    (openResult : List Nat → Except Error (List Nat))
    (ciphertext : List Nat) : RustResult (List Nat) :=
  match unwrapResult with
  | Except.error e => RustResult.err e
  | Except.ok group_key =>
    if ciphertext.length < group_key.overhead then RustResult.panicked
    else
      let dst : List Nat := List.replicate (ciphertext.length - group_key.overhead) 0
      match decodeAuthor with
      | Except.error e => RustResult.err e
      | Except.ok _ =>
        match openResult dst with
        | Except.error e => RustResult.err e
        | Except.ok out => RustResult.ok out

end Crypto

/-! Helper lemmas about emitted code. Everything below this point is a
theorem; the definitions above are the embedding. -/

namespace Compile

theorem bind_ok_elim {ε α β : Type} {ma : Except ε α} {f : α → Except ε β}
    {b : β} (h : ma >>= f = Except.ok b) :
    ∃ a, ma = Except.ok a ∧ f a = Except.ok b := by
  cases ma with
  | error e => exact absurd h (by simp [Bind.bind, Except.bind])
  | ok a => exact ⟨a, rfl, by simpa [Bind.bind, Except.bind] using h⟩

theorem ed_cast {st st' : CompileState} {b b' : Bool} (h : EmitsD st st' b)
    (hb : b = b') : EmitsD st st' b' := hb ▸ h

theorem enr_refl (st : CompileState) : EmitsNR st st :=
  ⟨[], by simp, by simp, by simp⟩

theorem ed_trans {s1 s2 s3 : CompileState} {b1 b2 : Bool}
    (h1 : EmitsD s1 s2 b1) (h2 : EmitsD s2 s3 b2) : EmitsD s1 s3 (b1 || b2) := by
  obtain ⟨d1, p1, w1, r1⟩ := h1
  obtain ⟨d2, p2, w2, r2⟩ := h2
  exact ⟨d1 ++ d2, by simp [p2, p1], by simp [w2, w1]; omega, by simp [r1, r2]⟩

theorem enr_trans {s1 s2 s3 : CompileState} (h1 : EmitsNR s1 s2)
    (h2 : EmitsNR s2 s3) : EmitsNR s1 s3 :=
  ed_trans h1 h2

theorem ed_append {st st' : CompileState} {b : Bool} (h : EmitsD st st' b)
    {i : Instruction} : EmitsD st (append_instruction st' i) (b || isRet i) := by
  obtain ⟨d, p, w, r⟩ := h
  refine ⟨d ++ [i], ?_, ?_, ?_⟩
  · simp [append_instruction, p]
  · simp [append_instruction, w]; omega
  · simp [r]

theorem enr_append {st st' : CompileState} (h : EmitsNR st st') {i : Instruction}
    (hi : isRet i = false) : EmitsNR st (append_instruction st' i) :=
  ed_cast (ed_append h) (by simp [hi])

theorem enr_label {st st' : CompileState} (h : EmitsNR st st') {n : String}
    {a : Nat} {t : LabelType} : EmitsNR st (define_label st' n a t) := by
  obtain ⟨d, p, w, r⟩ := h
  exact ⟨d, by simp [define_label, p], by simp [define_label, w], r⟩

set_option maxHeartbeats 1600000 in
mutual

theorem compile_expression_emits :
    ∀ (e : Expression) (st st' : CompileState),
      compile_expression e st = Except.ok st' → EmitsNR st st'
  | Expression.int _, st, st', h => by
    simp only [compile_expression] at h
    injection h with h; subst h
    refine enr_append ?_ rfl
    exact enr_refl st
  | Expression.string _, st, st', h => by
    simp only [compile_expression] at h
    injection h with h; subst h
    refine enr_append ?_ rfl
    exact enr_refl st
  | Expression.bool _, st, st', h => by
    simp only [compile_expression] at h
    injection h with h; subst h
    refine enr_append ?_ rfl
    exact enr_refl st
  | Expression.optNone, st, st', h => by
    simp only [compile_expression] at h
    injection h with h; subst h
    refine enr_append ?_ rfl
    exact enr_refl st
  | Expression.optSome v, st, st', h => by
    simp only [compile_expression] at h
    exact compile_expression_emits v st st' h
  | Expression.namedStruct s, st, st', h => by
    simp only [compile_expression] at h
    exact compile_struct_literal_emits s st st' h
  | Expression.bind, st, st', h => by
    simp only [compile_expression] at h
    exact Except.noConfusion h
  | Expression.queryFn f, st, st', h => by
    simp only [compile_expression] at h
    obtain ⟨st1, hf, h⟩ := bind_ok_elim h
    injection h with h; subst h
    refine enr_append ?_ rfl
    exact compile_fact_literal_emits f st st1 hf
  | Expression.existsFn f, st, st', h => by
    simp only [compile_expression] at h
    obtain ⟨st1, hf, h⟩ := bind_ok_elim h
    injection h with h; subst h
    refine enr_append ?_ rfl
    exact compile_fact_literal_emits f st st1 hf
  | Expression.ifFn e t f, st, st', h => by
    simp only [compile_expression, anonymous_name] at h
    obtain ⟨st1, he, h⟩ := bind_ok_elim h
    obtain ⟨st2, hf, h⟩ := bind_ok_elim h
    obtain ⟨st3, ht, h⟩ := bind_ok_elim h
    injection h with h; subst h
    apply enr_label
    refine enr_trans ?_ (compile_expression_emits t _ _ ht)
    apply enr_label
    refine enr_append ?_ rfl
    refine enr_trans ?_ (compile_expression_emits f _ _ hf)
    refine enr_append ?_ rfl
    refine enr_trans ?_ (compile_expression_emits e _ _ he)
    exact ⟨[], by simp, by simp, by simp⟩
  | Expression.idFn _, st, st', h => by
    simp only [compile_expression] at h
    exact Except.noConfusion h
  | Expression.authorIdFn _, st, st', h => by
    simp only [compile_expression] at h
    exact Except.noConfusion h
  | Expression.functionCall (FunctionCall.mk name args), st, st', h => by
    simp only [compile_expression] at h
    split at h
    · exact Except.noConfusion h
    · split at h
      · exact Except.noConfusion h
      · split at h
        · exact Except.noConfusion h
        · obtain ⟨st1, hargs, h⟩ := bind_ok_elim h
          injection h with h; subst h
          refine enr_append ?_ rfl
          exact compile_expr_args_emits args st st1 hargs
  | Expression.identifier _, st, st', h => by
    simp only [compile_expression] at h
    injection h with h; subst h
    refine enr_append ?_ rfl
    refine enr_append ?_ rfl
    exact enr_refl st
  | Expression.parentheses e, st, st', h => by
    simp only [compile_expression] at h
    exact compile_expression_emits e st st' h
  | Expression.dot t _, st, st', h => by
    simp only [compile_expression] at h
    obtain ⟨st1, ht, h⟩ := bind_ok_elim h
    injection h with h; subst h
    refine enr_append ?_ rfl
    refine enr_append ?_ rfl
    exact compile_expression_emits t st st1 ht
  | Expression.addE a b, st, st', h => by
    simp only [compile_expression] at h
    obtain ⟨st1, ha, h⟩ := bind_ok_elim h
    obtain ⟨st2, hb, h⟩ := bind_ok_elim h
    injection h with h; subst h
    refine enr_append ?_ rfl
    exact enr_trans (compile_expression_emits a st st1 ha)
      (compile_expression_emits b st1 st2 hb)
  | Expression.subtract a b, st, st', h => by
    simp only [compile_expression] at h
    obtain ⟨st1, ha, h⟩ := bind_ok_elim h
    obtain ⟨st2, hb, h⟩ := bind_ok_elim h
    injection h with h; subst h
    refine enr_append ?_ rfl
    exact enr_trans (compile_expression_emits a st st1 ha)
      (compile_expression_emits b st1 st2 hb)
  | Expression.andE a b, st, st', h => by
    simp only [compile_expression] at h
    obtain ⟨st1, ha, h⟩ := bind_ok_elim h
    obtain ⟨st2, hb, h⟩ := bind_ok_elim h
    injection h with h; subst h
    refine enr_append ?_ rfl
    exact enr_trans (compile_expression_emits a st st1 ha)
      (compile_expression_emits b st1 st2 hb)
  | Expression.orE a b, st, st', h => by
    simp only [compile_expression] at h
    obtain ⟨st1, ha, h⟩ := bind_ok_elim h
    obtain ⟨st2, hb, h⟩ := bind_ok_elim h
    injection h with h; subst h
    refine enr_append ?_ rfl
    exact enr_trans (compile_expression_emits a st st1 ha)
      (compile_expression_emits b st1 st2 hb)
  | Expression.equal a b, st, st', h => by
    simp only [compile_expression] at h
    obtain ⟨st1, ha, h⟩ := bind_ok_elim h
    obtain ⟨st2, hb, h⟩ := bind_ok_elim h
    injection h with h; subst h
    refine enr_append ?_ rfl
    exact enr_trans (compile_expression_emits a st st1 ha)
      (compile_expression_emits b st1 st2 hb)
  | Expression.greaterThan a b, st, st', h => by
    simp only [compile_expression] at h
    obtain ⟨st1, ha, h⟩ := bind_ok_elim h
    obtain ⟨st2, hb, h⟩ := bind_ok_elim h
    injection h with h; subst h
    refine enr_append ?_ rfl
    exact enr_trans (compile_expression_emits a st st1 ha)
      (compile_expression_emits b st1 st2 hb)
  | Expression.lessThan a b, st, st', h => by
    simp only [compile_expression] at h
    obtain ⟨st1, ha, h⟩ := bind_ok_elim h
    obtain ⟨st2, hb, h⟩ := bind_ok_elim h
    injection h with h; subst h
    refine enr_append ?_ rfl
    exact enr_trans (compile_expression_emits a st st1 ha)
      (compile_expression_emits b st1 st2 hb)
  | Expression.greaterThanOrEqual a b, st, st', h => by
    simp only [compile_expression] at h
    obtain ⟨st1, ha, h⟩ := bind_ok_elim h
    obtain ⟨st2, hb, h⟩ := bind_ok_elim h
    injection h with h; subst h
    refine enr_append ?_ rfl
    refine enr_append ?_ rfl
    refine enr_append ?_ rfl
    refine enr_append ?_ rfl
    refine enr_append ?_ rfl
    refine enr_append ?_ rfl
    refine enr_append ?_ rfl
    exact enr_trans (compile_expression_emits a st st1 ha)
      (compile_expression_emits b st1 st2 hb)
  | Expression.lessThanOrEqual a b, st, st', h => by
    simp only [compile_expression] at h
    obtain ⟨st1, ha, h⟩ := bind_ok_elim h
    obtain ⟨st2, hb, h⟩ := bind_ok_elim h
    injection h with h; subst h
    refine enr_append ?_ rfl
    refine enr_append ?_ rfl
    refine enr_append ?_ rfl
    refine enr_append ?_ rfl
    refine enr_append ?_ rfl
    refine enr_append ?_ rfl
    refine enr_append ?_ rfl
    exact enr_trans (compile_expression_emits a st st1 ha)
      (compile_expression_emits b st1 st2 hb)
  | Expression.notEqual a b, st, st', h => by
    simp only [compile_expression] at h
    obtain ⟨st1, ha, h⟩ := bind_ok_elim h
    obtain ⟨st2, hb, h⟩ := bind_ok_elim h
    injection h with h; subst h
    refine enr_append ?_ rfl
    refine enr_append ?_ rfl
    exact enr_trans (compile_expression_emits a st st1 ha)
      (compile_expression_emits b st1 st2 hb)
  | Expression.negative _, st, st', h => by
    simp only [compile_expression] at h
    exact Except.noConfusion h
  | Expression.notE _, st, st', h => by
    simp only [compile_expression] at h
    exact Except.noConfusion h
  | Expression.unwrap e, st, st', h => by
    simp only [compile_expression, anonymous_name] at h
    obtain ⟨st1, he, h⟩ := bind_ok_elim h
    injection h with h; subst h
    apply enr_label
    refine enr_append ?_ rfl
    refine enr_append ?_ rfl
    refine enr_append ?_ rfl
    refine enr_append ?_ rfl
    refine enr_append ?_ rfl
    refine enr_append ?_ rfl
    refine enr_trans ?_ (compile_expression_emits e _ _ he)
    exact ⟨[], by simp, by simp, by simp⟩
  | Expression.isE _ _, st, st', h => by
    simp only [compile_expression] at h
    exact Except.noConfusion h
termination_by e _ _ _ => sizeOf e

theorem compile_struct_literal_emits :
    ∀ (s : NamedStruct) (st st' : CompileState),
      compile_struct_literal s st = Except.ok st' → EmitsNR st st'
  | NamedStruct.mk _ fields, st, st', h => by
    simp only [compile_struct_literal] at h
    split at h
    · exact Except.noConfusion h
    · refine enr_trans ?_ (compile_struct_fields_emits fields _ _ h)
      refine enr_append ?_ rfl
      refine enr_append ?_ rfl
      exact enr_refl st
termination_by s _ _ _ => sizeOf s

theorem compile_struct_fields_emits :
    ∀ (fields : FieldList) (st st' : CompileState),
      compile_struct_fields fields st = Except.ok st' → EmitsNR st st'
  | FieldList.nil, st, st', h => by
    simp only [compile_struct_fields] at h
    injection h with h; subst h
    exact enr_refl st
  | FieldList.cons _ v rest, st, st', h => by
    simp only [compile_struct_fields] at h
    obtain ⟨st1, hv, h⟩ := bind_ok_elim h
    refine enr_trans ?_ (compile_struct_fields_emits rest _ _ h)
    refine enr_append ?_ rfl
    refine enr_append ?_ rfl
    exact compile_expression_emits v st st1 hv
termination_by fields _ _ _ => sizeOf fields

theorem compile_fact_literal_emits :
    ∀ (f : FactLiteral) (st st' : CompileState),
      compile_fact_literal f st = Except.ok st' → EmitsNR st st'
  | FactLiteral.mk _ keys vals, st, st', h => by
    cases vals with
    | none =>
      simp only [compile_fact_literal] at h
      obtain ⟨st1, hk, h⟩ := bind_ok_elim h
      injection h with h; subst h
      refine enr_trans ?_ (compile_fact_key_fields_emits keys _ _ hk)
      refine enr_append ?_ rfl
      refine enr_append ?_ rfl
      exact enr_refl st
    | some fields =>
      simp only [compile_fact_literal] at h
      obtain ⟨st1, hk, h⟩ := bind_ok_elim h
      refine enr_trans ?_ (compile_fact_value_fields_emits fields _ _ h)
      refine enr_trans ?_ (compile_fact_key_fields_emits keys _ _ hk)
      refine enr_append ?_ rfl
      refine enr_append ?_ rfl
      exact enr_refl st
termination_by f _ _ _ => sizeOf f

theorem compile_fact_key_fields_emits :
    ∀ (fields : FieldList) (st st' : CompileState),
      compile_fact_key_fields fields st = Except.ok st' → EmitsNR st st'
  | FieldList.nil, st, st', h => by
    simp only [compile_fact_key_fields] at h
    injection h with h; subst h
    exact enr_refl st
  | FieldList.cons _ v rest, st, st', h => by
    simp only [compile_fact_key_fields] at h
    obtain ⟨st1, hv, h⟩ := bind_ok_elim h
    refine enr_trans ?_ (compile_fact_key_fields_emits rest _ _ h)
    refine enr_append ?_ rfl
    refine enr_append ?_ rfl
    exact compile_expression_emits v st st1 hv
termination_by fields _ _ _ => sizeOf fields

theorem compile_fact_value_fields_emits :
    ∀ (fields : FieldList) (st st' : CompileState),
      compile_fact_value_fields fields st = Except.ok st' → EmitsNR st st'
  | FieldList.nil, st, st', h => by
    simp only [compile_fact_value_fields] at h
    injection h with h; subst h
    exact enr_refl st
  | FieldList.cons _ v rest, st, st', h => by
    simp only [compile_fact_value_fields] at h
    split at h
    · exact compile_fact_value_fields_emits rest st st' h
    · obtain ⟨st1, hv, h⟩ := bind_ok_elim h
      refine enr_trans ?_ (compile_fact_value_fields_emits rest _ _ h)
      refine enr_append ?_ rfl
      refine enr_append ?_ rfl
      exact compile_expression_emits v st st1 hv
termination_by fields _ _ _ => sizeOf fields

theorem compile_expr_args_emits :
    ∀ (args : ExprList) (st st' : CompileState),
      compile_expr_args args st = Except.ok st' → EmitsNR st st'
  | ExprList.nil, st, st', h => by
    simp only [compile_expr_args] at h
    injection h with h; subst h
    exact enr_refl st
  | ExprList.cons e rest, st, st', h => by
    simp only [compile_expr_args] at h
    obtain ⟨st1, he, h⟩ := bind_ok_elim h
    exact enr_trans (compile_expression_emits e st st1 he)
      (compile_expr_args_emits rest st1 st' h)
termination_by args _ _ _ => sizeOf args

end

end Compile

namespace Compile

theorem compile_update_to_emits :
    ∀ (toFields : FieldList) (st st' : CompileState),
      compile_update_to toFields st = Except.ok st' → EmitsNR st st'
  | FieldList.nil, st, st', h => by
    simp only [compile_update_to] at h
    injection h with h; subst h
    exact enr_refl st
  | FieldList.cons _ v rest, st, st', h => by
    simp only [compile_update_to] at h
    split at h
    · exact Except.noConfusion h
    · obtain ⟨st1, hv, h⟩ := bind_ok_elim h
      refine enr_trans ?_ (compile_update_to_emits rest _ _ h)
      refine enr_append ?_ rfl
      refine enr_append ?_ rfl
      exact compile_expression_emits v st st1 hv

theorem compile_finish_statements_emits :
    ∀ (statements : List FinishStatement) (st st' : CompileState),
      compile_finish_statements statements st = Except.ok st' → EmitsNR st st'
  | [], st, st', h => by
    simp only [compile_finish_statements] at h
    injection h with h; subst h
    exact enr_refl st
  | FinishStatement.create f :: rest, st, st', h => by
    simp only [compile_finish_statements] at h
    obtain ⟨st1, hf, h⟩ := bind_ok_elim h
    obtain ⟨st2, hok, h⟩ := bind_ok_elim h
    injection hok with hok; subst hok
    refine enr_trans ?_ (compile_finish_statements_emits rest _ _ h)
    refine enr_append ?_ rfl
    exact compile_fact_literal_emits f st st1 hf
  | FinishStatement.update f toFields :: rest, st, st', h => by
    simp only [compile_finish_statements] at h
    obtain ⟨st1, hf, h⟩ := bind_ok_elim h
    obtain ⟨st2, hto, h⟩ := bind_ok_elim h
    obtain ⟨st3, hok, h⟩ := bind_ok_elim h
    injection hok with hok; subst hok
    refine enr_trans ?_ (compile_finish_statements_emits rest _ _ h)
    refine enr_append ?_ rfl
    refine enr_trans ?_ (compile_update_to_emits toFields _ _ hto)
    refine enr_append ?_ rfl
    exact compile_fact_literal_emits f st st1 hf
  | FinishStatement.delete f :: rest, st, st', h => by
    simp only [compile_finish_statements] at h
    obtain ⟨st1, hf, h⟩ := bind_ok_elim h
    obtain ⟨st2, hok, h⟩ := bind_ok_elim h
    injection hok with hok; subst hok
    refine enr_trans ?_ (compile_finish_statements_emits rest _ _ h)
    refine enr_append ?_ rfl
    exact compile_fact_literal_emits f st st1 hf
  | FinishStatement.effect e :: rest, st, st', h => by
    simp only [compile_finish_statements] at h
    obtain ⟨st1, he, h⟩ := bind_ok_elim h
    obtain ⟨st2, hok, h⟩ := bind_ok_elim h
    injection hok with hok; subst hok
    refine enr_trans ?_ (compile_finish_statements_emits rest _ _ h)
    refine enr_append ?_ rfl
    exact compile_expression_emits e st st1 he
  | FinishStatement.functionCall (FunctionCall.mk name args) :: rest, st, st', h => by
    simp only [compile_finish_statements] at h
    split at h
    · exact absurd h (by simp [Bind.bind, Except.bind])
    · split at h
      · exact absurd h (by simp [Bind.bind, Except.bind])
      · split at h
        · exact absurd h (by simp [Bind.bind, Except.bind])
        · obtain ⟨st1, hargs, h⟩ := bind_ok_elim h
          obtain ⟨st2, hok, h⟩ := bind_ok_elim h
          injection hok with hok; subst hok
          refine enr_trans ?_ (compile_finish_statements_emits rest _ _ h)
          refine enr_append ?_ rfl
          exact compile_expr_args_emits args st st1 hargs

end Compile

namespace Compile

/-- The central bridge for the pure-function totality claim: successful
statement compilation emits code whose Return-instruction content equals
the presence of a top-level return statement. -/
theorem compile_statements_delta :
    ∀ (statements : List Statement) (st st' : CompileState),
      compile_statements statements st = Except.ok st' →
      EmitsD st st' (hasReturnStmt statements)
  | [], st, st', h => by
    simp only [compile_statements] at h
    injection h with h; subst h
    exact ⟨[], by simp, by simp, by simp [hasReturnStmt]⟩
  | Statement.letS i e :: rest, st, st', h => by
    simp only [compile_statements] at h
    obtain ⟨st1, he, h⟩ := bind_ok_elim h
    obtain ⟨st2, hok, h⟩ := bind_ok_elim h
    injection hok with hok; subst hok
    have h0 : EmitsNR st (append_instruction
        (append_instruction st1 (Instruction.const (Value.string i)))
        Instruction.defVar) := by
      refine enr_append ?_ rfl
      refine enr_append ?_ rfl
      exact compile_expression_emits e st st1 he
    refine ed_cast (ed_trans h0 (compile_statements_delta rest _ _ h)) ?_
    simp [hasReturnStmt, isRetStmt]
  | Statement.check e :: rest, st, st', h => by
    simp only [compile_statements] at h
    obtain ⟨st1, he, h⟩ := bind_ok_elim h
    obtain ⟨st2, hok, h⟩ := bind_ok_elim h
    injection hok with hok; subst hok
    have h0 : EmitsNR st (append_instruction
        (append_instruction st1 (Instruction.branch (Target.resolved (st1.wp + 2))))
        Instruction.panic) := by
      refine enr_append ?_ rfl
      refine enr_append ?_ rfl
      exact compile_expression_emits e st st1 he
    refine ed_cast (ed_trans h0 (compile_statements_delta rest _ _ h)) ?_
    simp [hasReturnStmt, isRetStmt]
  | Statement.matchS :: rest, st, st', h => by
    simp only [compile_statements] at h
    exact absurd h (by simp [Bind.bind, Except.bind])
  | Statement.whenS :: rest, st, st', h => by
    simp only [compile_statements] at h
    exact absurd h (by simp [Bind.bind, Except.bind])
  | Statement.emit e :: rest, st, st', h => by
    simp only [compile_statements] at h
    obtain ⟨st1, he, h⟩ := bind_ok_elim h
    obtain ⟨st2, hok, h⟩ := bind_ok_elim h
    injection hok with hok; subst hok
    have h0 : EmitsNR st (append_instruction st1 Instruction.emit) := by
      refine enr_append ?_ rfl
      exact compile_expression_emits e st st1 he
    refine ed_cast (ed_trans h0 (compile_statements_delta rest _ _ h)) ?_
    simp [hasReturnStmt, isRetStmt]
  | Statement.ret e :: rest, st, st', h => by
    simp only [compile_statements] at h
    obtain ⟨st1, he, h⟩ := bind_ok_elim h
    obtain ⟨st2, hok, h⟩ := bind_ok_elim h
    injection hok with hok; subst hok
    have h0 : EmitsD st (append_instruction st1 Instruction.ret)
        (false || isRet Instruction.ret) :=
      ed_append (compile_expression_emits e st st1 he)
    refine ed_cast (ed_trans h0 (compile_statements_delta rest _ _ h)) ?_
    simp [hasReturnStmt, isRetStmt, isRet]
  | Statement.finish fs :: rest, st, st', h => by
    simp only [compile_statements] at h
    obtain ⟨st1, hf, h⟩ := bind_ok_elim h
    refine ed_cast (ed_trans (compile_finish_statements_emits fs st st1 hf)
      (compile_statements_delta rest _ _ h)) ?_
    simp [hasReturnStmt, isRetStmt]

/-- compile_arg_defs only appends Const/Def pairs: no Return emitted. -/
theorem compile_arg_defs_foldl_emits (l : List FieldDefinition)
    (st : CompileState) :
    EmitsNR st (l.foldl
      (fun s a =>
        append_instruction
          (append_instruction s (Instruction.const (Value.string a.identifier)))
          Instruction.defVar)
      st) := by
  induction l generalizing st with
  | nil => exact enr_refl st
  | cons a rest ih =>
    simp only [List.foldl_cons]
    refine enr_trans ?_ (ih _)
    refine enr_append ?_ rfl
    refine enr_append ?_ rfl
    exact enr_refl st

theorem compile_arg_defs_emits (arguments : List FieldDefinition)
    (st : CompileState) : EmitsNR st (compile_arg_defs arguments st) :=
  compile_arg_defs_foldl_emits arguments.reverse st

/-- EmitsD preserves the wp = progmem.length invariant. -/
theorem ed_wp_inv {st st' : CompileState} {b : Bool} (h : EmitsD st st' b)
    (hw : st.wp = st.progmem.length) : st'.wp = st'.progmem.length := by
  obtain ⟨d, p, w, _⟩ := h
  rw [w, p, hw]
  simp

/-- The slice progmem[from..wp] of an extension by d, starting at the old
end, is d itself. -/
theorem progSlice_append (p d : List Instruction) :
    progSlice (p ++ d) p.length (p.length + d.length) = d := by
  have ht : (p ++ d).take (p.length + d.length) = p ++ d :=
    List.take_of_length_le (by simp)
  rw [progSlice, ht]
  exact List.drop_left p d

/-- define_function_signature leaves progmem and the write pointer
unchanged on success. -/
theorem define_function_signature_ok {d : FunctionDefinition}
    {st st1 : CompileState} (h : define_function_signature d st = Except.ok st1) :
    st1.progmem = st.progmem ∧ st1.wp = st.wp := by
  simp only [define_function_signature] at h
  split at h
  · exact Except.noConfusion h
  · injection h with h
    subst h
    exact ⟨rfl, rfl⟩

/-- Looking up a key just removed from an association map fails. -/
theorem mapLookup_mapRemove {α : Type} (m : List (String × α)) (k : String) :
    mapLookup (mapRemove m k) k = Option.none := by
  induction m with
  | nil => rfl
  | cons p rest ih =>
    obtain ⟨k', v⟩ := p
    by_cases hk : k' = k
    · simp [mapRemove, hk, ih]
    · simp [mapRemove, mapLookup, hk, ih]

/-- Claim C3: for every pure function definition whose compiled body can
reach its end without executing a Return instruction on some path —
captured by canReachEndWithoutReturn, which in the compilable statement
fragment holds exactly when no top-level statement is a return —
compilation fails with the NoReturn error, and compilation succeeds
exactly when this cannot happen, in which case the fall-through Panic
guard is appended after the body. Hypotheses: the signature registration
and the body compilation themselves succeed (other compile errors are
orthogonal to the claim), and the incoming state satisfies the machine
invariant that the write pointer equals the program length. -/
theorem claim_C3 (f : FunctionDefinition) (st st1 st3 : CompileState)
    (hw : st.wp = st.progmem.length)
    (hsig : define_function_signature f
      (define_label st f.identifier st.wp LabelType.temporary) = Except.ok st1)
    (hbody : compile_statements f.statements (compile_arg_defs f.arguments st1) =
      Except.ok st3) :
    (compile_function f st = Except.error CompileError.noReturn ↔
      canReachEndWithoutReturn f.statements = true) ∧
    (canReachEndWithoutReturn f.statements = false →
      compile_function f st = Except.ok (append_instruction st3 Instruction.panic)) := by
  have heq : compile_function f st =
      (if containsReturn (progSlice st3.progmem
          (compile_arg_defs f.arguments st1).wp st3.wp) then
        Except.ok (append_instruction st3 Instruction.panic)
      else
        Except.error CompileError.noReturn) := by
    simp only [compile_function, hsig, hbody, Bind.bind, Except.bind]
  have hw1 : st1.wp = st1.progmem.length := by
    obtain ⟨hp1, hq1⟩ := define_function_signature_ok hsig
    rw [hp1, hq1]
    exact hw
  have e1 : EmitsNR st1 (compile_arg_defs f.arguments st1) :=
    compile_arg_defs_emits f.arguments st1
  have hw2 : (compile_arg_defs f.arguments st1).wp =
      (compile_arg_defs f.arguments st1).progmem.length := ed_wp_inv e1 hw1
  obtain ⟨d, hp, hwp, hret⟩ := compile_statements_delta f.statements _ st3 hbody
  have hkey : containsReturn (progSlice st3.progmem
      (compile_arg_defs f.arguments st1).wp st3.wp) = hasReturnStmt f.statements := by
    rw [hp, hwp, hw2, progSlice_append]
    exact hret
  rw [heq, hkey]
  cases hR : hasReturnStmt f.statements with
  | false => simp [hR, canReachEndWithoutReturn]
  | true => simp [hR, canReachEndWithoutReturn]

/-- Claim C3 witness: a pure function whose body is a single emit statement
(reaching its end without Return) is rejected with NoReturn. -/
theorem claim_C3_witness :
    compile_function
      (FunctionDefinition.mk "f" [] VType.intT [Statement.emit (Expression.int 1)])
      CompileState.new = Except.error CompileError.noReturn :=
  (claim_C3
    (FunctionDefinition.mk "f" [] VType.intT [Statement.emit (Expression.int 1)])
    CompileState.new _ _ rfl rfl rfl).1.mpr rfl

/-- Claim C2 counterexample: a command whose open block is the nonempty
statement list [emit "x"] compiles to the single instruction Exit: the
lowered open sequence (Const "x"; Emit), exhibited by compiling the same
block standalone, is absent from the command's compiled bytecode, so the
compiled command does not include the statement sequences of all four
blocks. -/
theorem claim_C2_counterexample :
    compile_command
      (CommandDefinition.mk [] "Foo" [] []
        [Statement.emit (Expression.string "x")] [] [])
      CompileState.new =
      Except.ok (CompileState.mk [Instruction.exit]
        [("Foo", Label.mk 0 LabelType.command)] [("Foo", [])] 1 0 []) ∧
    compile_statements [Statement.emit (Expression.string "x")] CompileState.new =
      Except.ok (CompileState.mk
        [Instruction.const (Value.string "x"), Instruction.emit] [] [] 2 0 []) ∧
    Instruction.emit ∉ [Instruction.exit] :=
  ⟨rfl, rfl, by decide⟩

/-- Claim C2 (amended): the bytecode compiled for a command consists of the
lowered policy block followed by Exit, entered at the command's
Command-kind label; the recall, seal and open blocks of the definition are
not compiled. The hypothesis is that the policy block itself compiles. -/
theorem claim_C2 (cmd : CommandDefinition) (st st1 : CompileState)
    (hpol : compile_statements cmd.policy
      (define_label (define_struct st cmd.identifier cmd.fields) cmd.identifier
        (define_struct st cmd.identifier cmd.fields).wp LabelType.command) =
      Except.ok st1) :
    compile_command cmd st = Except.ok (append_instruction st1 Instruction.exit) := by
  simp only [compile_command, hpol, Bind.bind, Except.bind]

/-- Claim C2 witness: a command with a one-statement policy block compiles
to that block's code followed by Exit. -/
theorem claim_C2_witness :
    compile_command
      (CommandDefinition.mk [] "C" [] [] [] [Statement.check (Expression.bool true)] [])
      CompileState.new =
      Except.ok (append_instruction
        (CompileState.mk
          [Instruction.const (Value.bool true), Instruction.branch (Target.resolved 3),
           Instruction.panic]
          [("C", Label.mk 0 LabelType.command)] [("C", [])] 3 0 [])
        Instruction.exit) :=
  claim_C2
    (CommandDefinition.mk [] "C" [] [] [] [Statement.check (Expression.bool true)] [])
    CompileState.new _ rfl

/-- Claim C5: a >= b compiles to the code for a, the code for b, then
exactly Dup(1), Dup(1), Eq, Swap(2), Swap(1), Gt, Or — so a and b are each
compiled (hence evaluated) once — and a <= b identically with Lt in place
of Gt; and running that seven-instruction tail on a stack holding the two
Int operand values produces (a == b) || (a > b) (respectively <), under
the spec-modelled stack semantics of those opcodes. -/
theorem claim_C5 :
    (∀ (a b : Expression) (st st1 st2 : CompileState),
      compile_expression a st = Except.ok st1 →
      compile_expression b st1 = Except.ok st2 →
      compile_expression (Expression.greaterThanOrEqual a b) st =
        Except.ok ((cmpEpilogue Instruction.gt).foldl append_instruction st2) ∧
      compile_expression (Expression.lessThanOrEqual a b) st =
        Except.ok ((cmpEpilogue Instruction.lt).foldl append_instruction st2)) ∧
    (∀ (x y : Int) (rest : List Value),
      runOps (cmpEpilogue Instruction.gt) (Value.int y :: Value.int x :: rest) =
        Option.some (Value.bool (decide (x = y) || decide (x > y)) :: rest) ∧
      runOps (cmpEpilogue Instruction.lt) (Value.int y :: Value.int x :: rest) =
        Option.some (Value.bool (decide (x = y) || decide (x < y)) :: rest)) := by
  constructor
  · intro a b st st1 st2 ha hb
    constructor
    · simp [compile_expression, ha, hb, Bind.bind, Except.bind, cmpEpilogue]
    · simp [compile_expression, ha, hb, Bind.bind, Except.bind, cmpEpilogue]
  · intro x y rest
    constructor
    · simp [cmpEpilogue, runOps, stackStep, List.get?, List.set]
    · simp [cmpEpilogue, runOps, stackStep, List.get?, List.set]

/-- Claim C5 witness: the lowering and the stack evaluation at concrete
operands 1 >= 2 and at stack values 3, 4. -/
theorem claim_C5_witness :
    compile_expression
      (Expression.greaterThanOrEqual (Expression.int 1) (Expression.int 2))
      CompileState.new =
      Except.ok ((cmpEpilogue Instruction.gt).foldl append_instruction
        (CompileState.mk
          [Instruction.const (Value.int 1), Instruction.const (Value.int 2)]
          [] [] 2 0 [])) ∧
    runOps (cmpEpilogue Instruction.gt) [Value.int 4, Value.int 3] =
      Option.some [Value.bool false] :=
  ⟨(claim_C5.1 (Expression.int 1) (Expression.int 2) CompileState.new _ _ rfl rfl).1,
   (claim_C5.2 3 4 []).1⟩

/-- Claim C6: a call to a finish-colored function inside an expression
fails compilation with InvalidElement, and a call to a pure-colored
function as a finish-block statement fails with InvalidElement, both via
the signature-table color check. -/
theorem claim_C6 :
    (∀ (name : String) (args : ExprList) (st : CompileState)
        (sig : FunctionSignature),
      mapLookup st.function_signatures name = Option.some sig →
      sig.color = FunctionColor.finish →
      compile_expression (Expression.functionCall (FunctionCall.mk name args)) st =
        Except.error CompileError.invalidElement) ∧
    (∀ (name : String) (args : ExprList) (rest : List FinishStatement)
        (st : CompileState) (sig : FunctionSignature) (t : VType),
      mapLookup st.function_signatures name = Option.some sig →
      sig.color = FunctionColor.pure t →
      compile_finish_statements
        (FinishStatement.functionCall (FunctionCall.mk name args) :: rest) st =
        Except.error CompileError.invalidElement) := by
  constructor
  · intro name args st sig hl hc
    obtain ⟨sargs, scolor⟩ := sig
    simp only [FunctionSignature.color] at hc
    subst hc
    simp [compile_expression, hl]
  · intro name args rest st sig t hl hc
    obtain ⟨sargs, scolor⟩ := sig
    simp only [FunctionSignature.color] at hc
    subst hc
    simp [compile_finish_statements, hl, Bind.bind, Except.bind]

/-- Claim C6 witness: with a signature table holding a finish function g
and a pure function p, calling g in an expression and p in a finish block
both fail with InvalidElement. -/
theorem claim_C6_witness :
    compile_expression
      (Expression.functionCall (FunctionCall.mk "g" ExprList.nil))
      (CompileState.mk [] [] [] 0 0
        [("g", FunctionSignature.mk [] FunctionColor.finish)]) =
      Except.error CompileError.invalidElement ∧
    compile_finish_statements
      [FinishStatement.functionCall (FunctionCall.mk "p" ExprList.nil)]
      (CompileState.mk [] [] [] 0 0
        [("p", FunctionSignature.mk [] (FunctionColor.pure VType.intT))]) =
      Except.error CompileError.invalidElement :=
  ⟨claim_C6.1 "g" ExprList.nil _ _ rfl rfl,
   claim_C6.2 "p" ExprList.nil [] _ _ VType.intT rfl rfl⟩

/-- Claim C10: resolving a Branch/Jump/Call target that names a
Temporary-kind label removes the label from the label map (so a second
reference can no longer resolve); a program that references the same
Temporary label from two Call instructions fails target resolution with
BadTarget; and compile_function registers a pure function's entry label
with Temporary kind (shown at a concrete single-return function). -/
theorem claim_C10 :
    (∀ (s : String) (lbl : Label) (labels : List (String × Label)),
      mapLookup labels s = Option.some lbl →
      lbl.ltype = LabelType.temporary →
      resolve_target (Target.unresolved s) labels =
        Except.ok (Target.resolved lbl.addr, mapRemove labels s) ∧
      mapLookup (mapRemove labels s) s = Option.none) ∧
    resolve_targets_list
      [Instruction.call (Target.unresolved "f"),
       Instruction.call (Target.unresolved "f")]
      [("f", Label.mk 0 LabelType.temporary)] =
      Except.error CompileError.badTarget ∧
    compile_function
      (FunctionDefinition.mk "f" [] VType.intT [Statement.ret (Expression.int 0)])
      CompileState.new =
      Except.ok (CompileState.mk
        [Instruction.const (Value.int 0), Instruction.ret, Instruction.panic]
        [("f", Label.mk 0 LabelType.temporary)] [] 3 0
        [("f", FunctionSignature.mk [] (FunctionColor.pure VType.intT))]) ∧
    mapLookup [("f", Label.mk 0 LabelType.temporary)] "f" =
      Option.some (Label.mk 0 LabelType.temporary) := by
  refine ⟨?_, rfl, rfl, rfl⟩
  intro s lbl labels hl hlt
  refine ⟨?_, mapLookup_mapRemove labels s⟩
  simp [resolve_target, hl, hlt]

/-- Claim C10 witness: the removal behavior at a concrete one-entry label
map holding a temporary label. -/
theorem claim_C10_witness :
    resolve_target (Target.unresolved "g") [("g", Label.mk 7 LabelType.temporary)] =
      Except.ok (Target.resolved 7, mapRemove [("g", Label.mk 7 LabelType.temporary)] "g") ∧
    mapLookup (mapRemove [("g", Label.mk 7 LabelType.temporary)] "g") "g" =
      Option.none :=
  claim_C10.1 "g" (Label.mk 7 LabelType.temporary)
    [("g", Label.mk 7 LabelType.temporary)] rfl rfl

end Compile

namespace Parse

/-- Claim C1 counterexample: for NN = 0x80 the escape \x80 parses
successfully but to the character U+0080, whose UTF-8 byte representation
is the two bytes [0xC2, 0x80], not the single byte 0x80; and the escape
sequence backslash-backslash — which the claim exempts from failure — is
rejected with InvalidString. -/
theorem claim_C1_counterexample :
    (parse_string_literal (xEscapeLiteral 128) = Except.ok [Char.ofNat 128] ∧
      utf8Bytes [Char.ofNat 128] = [194, 128]) ∧
    parse_string_literal ['"', '\\', '\\', '"'] =
      Except.error ParseErrorKind.invalidString := by
  refine ⟨⟨?_, ?_⟩, ?_⟩ <;> decide

set_option maxRecDepth 4000 in
/-- Claim C1 (amended): for every NN in [0x00..0xFF], parsing a string
literal containing the escape \xNN succeeds and produces the one-character
string holding the char with code point NN; its byte representation is the
single byte NN exactly when NN < 0x80 (otherwise it is the two-byte UTF-8
encoding of U+00NN). A backslash followed by any character other than 'x'
or 'n' — including backslash itself — fails with an InvalidString parse
error. -/
theorem claim_C1 :
    (∀ b : Nat, b < 256 →
      parse_string_literal (xEscapeLiteral b) = Except.ok [Char.ofNat b] ∧
      (utf8Bytes [Char.ofNat b] = [b] ↔ b < 128)) ∧
    (∀ (c : Char) (rest : List Char), ¬ c = 'x' → ¬ c = 'n' →
      parse_string_literal ('"' :: '\\' :: c :: rest) =
        Except.error ParseErrorKind.invalidString) := by
  constructor
  · decide
  · intro c rest hx hn
    have h0 : parse_string_literal ('"' :: '\\' :: c :: rest) =
        parse_string_chars ('\\' :: c :: rest) [] := by
      simp [parse_string_literal]
    rw [h0, parse_string_chars.eq_def]
    simp [hx, hn]

/-- Claim C1 witness: the escape \x41 yields the one-byte string "A", and
the escape backslash-backslash is rejected. -/
theorem claim_C1_witness :
    (parse_string_literal (xEscapeLiteral 65) = Except.ok [Char.ofNat 65] ∧
      (utf8Bytes [Char.ofNat 65] = [65] ↔ 65 < 128)) ∧
    parse_string_literal ('"' :: '\\' :: '\\' :: ['"']) =
      Except.error ParseErrorKind.invalidString :=
  ⟨claim_C1.1 65 (by decide), claim_C1.2 '\\' ['"'] (by decide) (by decide)⟩

/-- Claim C4 counterexample: the reserved word "open" is accepted as an
enum definition name — an identifier position of a policy document —
without a ReservedIdentifier error, because parse_enum_definition consumes
the name via consume_string rather than consume_identifier. -/
theorem claim_C4_counterexample :
    "open" ∈ KEYWORDS ∧
    parse_enum_definition (Token.mk Rule.identifier "open")
      [Token.mk Rule.identifier "Red"] =
      Except.ok (EnumDefinition.mk "open" ["Red"]) :=
  ⟨by decide, rfl⟩

/-- Claim C4 (amended): every one of the 51 reserved keywords is rejected
with ReservedIdentifier in the identifier positions read through
consume_identifier (definition names of commands, structs, effects, facts,
actions and functions, field names, let bindings, attribute names, map
bindings), and non-keyword identifiers pass; but identifier positions read
through consume_string — enum definition names, enum variant values, enum
references, fact-literal field names, use-imports and function-call
targets — accept keywords without any check. -/
theorem claim_C4 :
    (∀ t : Token, t.rule = Rule.identifier → t.text ∈ KEYWORDS →
      consume_identifier t = Except.error ParseErrorKind.reservedIdentifier) ∧
    (∀ t : Token, t.rule = Rule.identifier → t.text ∉ KEYWORDS →
      consume_identifier t = Except.ok t.text) ∧
    (∀ t : Token, t.rule = Rule.identifier →
      consume_string t Rule.identifier = Except.ok t.text) ∧
    KEYWORDS.length = 51 := by
  refine ⟨?_, ?_, ?_, by decide⟩
  · intro t h1 h2
    simp only [consume_identifier, h1]
    rw [if_neg (by simp), if_pos (List.elem_eq_true_of_mem h2)]
  · intro t h1 h2
    have hc : KEYWORDS.contains t.text = false := by simpa using h2
    simp only [consume_identifier, h1]
    rw [if_neg (by simp), if_neg (by rw [hc]; simp)]
  · intro t h1
    simp [consume_string, h1]

/-- Claim C4 witness: the keyword "check" is rejected, the plain name
"foo" passes, and the keyword "open" passes through consume_string. -/
theorem claim_C4_witness :
    consume_identifier (Token.mk Rule.identifier "check") =
      Except.error ParseErrorKind.reservedIdentifier ∧
    consume_identifier (Token.mk Rule.identifier "foo") = Except.ok "foo" ∧
    consume_string (Token.mk Rule.identifier "open") Rule.identifier =
      Except.ok "open" :=
  ⟨claim_C4.1 (Token.mk Rule.identifier "check") rfl (by decide),
   claim_C4.2.1 (Token.mk Rule.identifier "foo") rfl (by decide),
   claim_C4.2.2.1 (Token.mk Rule.identifier "open") rfl⟩

end Parse

namespace Crypto

/-- The 4-byte big-endian encoding is injective on u32 values. -/
theorem u32be_inj {a b : Nat} (ha : a < 4294967296) (hb : b < 4294967296)
    (h : u32be a = u32be b) : a = b := by
  simp [u32be] at h
  omega

/-- Claim C7: for two BidiChannel values (with u32 labels) over the same
cipher suite, ch1.author_info() = ch2.peer_info() and ch1.peer_info() =
ch2.author_info() hold exactly when the channels describe the same channel
from its two ends — equal parent_cmd_id and label with our_id and their_id
swapped; so if any of those four fields differs, at least one equality
fails. Stated over the spec-modelled ideal tuple hash. -/
theorem claim_C7 (cs : SuiteIds) (ch1 ch2 : BidiChannel)
    (hl1 : ch1.label < 4294967296) (hl2 : ch2.label < 4294967296) :
    (author_info cs ch1 = peer_info cs ch2 ∧
      peer_info cs ch1 = author_info cs ch2) ↔
    (ch1.parent_cmd_id = ch2.parent_cmd_id ∧ ch1.our_id = ch2.their_id ∧
      ch1.their_id = ch2.our_id ∧ ch1.label = ch2.label) := by
  constructor
  · rintro ⟨ha, _⟩
    simp only [author_info, peer_info, tuple_hash, List.cons.injEq, and_true] at ha
    obtain ⟨_, _, _, hp, ho, ht, hl⟩ := ha
    exact ⟨hp, ho, ht, u32be_inj hl1 hl2 hl⟩
  · rintro ⟨hp, ho, ht, hl⟩
    constructor <;> simp [author_info, peer_info, tuple_hash, hp, ho, ht, hl]

/-- Claim C7 witness: two concrete matched channels satisfy both info
equalities. -/
theorem claim_C7_witness :
    author_info (SuiteIds.mk [9] [8]) (BidiChannel.mk [1] 0 [2] 0 [3] 7) =
      peer_info (SuiteIds.mk [9] [8]) (BidiChannel.mk [1] 0 [3] 0 [2] 7) ∧
    peer_info (SuiteIds.mk [9] [8]) (BidiChannel.mk [1] 0 [2] 0 [3] 7) =
      author_info (SuiteIds.mk [9] [8]) (BidiChannel.mk [1] 0 [3] 0 [2] 7) :=
  (claim_C7 (SuiteIds.mk [9] [8]) (BidiChannel.mk [1] 0 [2] 0 [3] 7)
    (BidiChannel.mk [1] 0 [3] 0 [2] 7) (by decide) (by decide)).mpr
    ⟨rfl, rfl, rfl, rfl⟩

/-- Claim C8: decrypt_message computes the plaintext buffer size as
ciphertext.len() minus the group key's AEAD overhead with an unchecked
usize subtraction, so for any ciphertext shorter than the overhead the
call panics (debug) or aborts on a wrapped allocation (release) instead of
returning a top-level Error — the claim's no-underflow guarantee fails. -/
theorem claim_C8 (gk : GroupKeyM) (decodeAuthor : Except Error Nat)
    (openResult : List Nat → Except Error (List Nat)) (ciphertext : List Nat)
    (h : ciphertext.length < gk.overhead) :
    decrypt_message (Except.ok gk) decodeAuthor openResult ciphertext =
      RustResult.panicked := by
  simp [decrypt_message, h]

/-- Claim C8 witness: the empty ciphertext against a group key with AEAD
overhead 16 panics rather than returning an Error. -/
theorem claim_C8_witness :
    decrypt_message (Except.ok (GroupKeyM.mk 16)) (Except.ok 0) Except.ok
      ([] : List Nat) = RustResult.panicked :=
  claim_C8 (GroupKeyM.mk 16) (Except.ok 0) Except.ok [] (by decide)

/-- Claim C9: with our_id equal to their_id, BidiSecrets::new,
BidiKeys::from_author_secret and BidiKeys::from_peer_encap all return the
same_user_id error before any key derivation, producing no keys. -/
theorem claim_C9 (ch : BidiChannel) (root_sk : Nat)
    (hpkeEncap : Except Error (List Nat))
    (hpkeKeysA hpkeKeysP : Except Error (List Nat × List Nat))
    (h : ch.our_id = ch.their_id) :
    bidiSecretsNew root_sk hpkeEncap ch = Except.error Error.sameUserId ∧
    bidiKeysFromAuthorSecret hpkeKeysA ch = Except.error Error.sameUserId ∧
    bidiKeysFromPeerEncap hpkeKeysP ch = Except.error Error.sameUserId := by
  refine ⟨?_, ?_, ?_⟩ <;>
    simp [bidiSecretsNew, bidiKeysFromAuthorSecret, bidiKeysFromPeerEncap, h]

/-- Claim C9 witness: a concrete channel whose two user ids coincide is
rejected by all three operations. -/
theorem claim_C9_witness :
    bidiSecretsNew 0 (Except.ok [1]) (BidiChannel.mk [1] 0 [5] 0 [5] 7) =
      Except.error Error.sameUserId ∧
    bidiKeysFromAuthorSecret (Except.ok ([1], [2]))
      (BidiChannel.mk [1] 0 [5] 0 [5] 7) = Except.error Error.sameUserId ∧
    bidiKeysFromPeerEncap (Except.ok ([1], [2]))
      (BidiChannel.mk [1] 0 [5] 0 [5] 7) = Except.error Error.sameUserId :=
  claim_C9 (BidiChannel.mk [1] 0 [5] 0 [5] 7) 0 (Except.ok [1])
    (Except.ok ([1], [2])) (Except.ok ([1], [2])) rfl

end Crypto
